import Mathlib

/-!
Verification of the broadcast-relay core: a shallow embedding of the
relay manager (src/manager/manager.go), the broadcaster with its
deduplication cache, bounded channel and overflow queue
(src/broadcaster, TTL-cache revision), the ingress duplicate-rejection
hook (src/relay/relay.go), and the configuration record
(src/config/config.go).

Modelling conventions:
* Go `float64` fields (success rates, scores, decay) are modelled as
  exact rationals `ℚ`.
* Go `time.Duration` / `time.Time` values are modelled as rationals
  measured in seconds; operations that read the wall clock take an
  explicit `now : ℚ` argument.
* Go `int64` counters are modelled as `ℤ`.
* Go maps are modelled as association lists; map iteration order is
  determinised to insertion order (the Go spec leaves it unspecified,
  so any fixed order is a legal refinement of the source).
* Pointers (`*RelayInfo`) are modelled by an explicit store: the
  manager holds a list of relay records (the heap cells) and a map
  from URL to cell index; dereferencing an index reads the cell.
-/

namespace BroadcastRelay

/-- Embeds `manager.RelayInfo` (src/manager/manager.go lines 11-18):
one record per downstream relay endpoint. -/
structure RelayInfo where
  url : String
  avgResponseTime : ℚ
  successRate : ℚ
  totalAttempts : ℤ
  successfulAttempts : ℤ
  lastChecked : ℚ
deriving DecidableEq, Repr

/-- Default cell used when dereferencing an out-of-range address. -/
def defaultRelayInfo : RelayInfo :=
  { url := "", avgResponseTime := 0, successRate := 0,
    totalAttempts := 0, successfulAttempts := 0, lastChecked := 0 }

/-- Embeds `manager.Manager` (src/manager/manager.go lines 20-26).
`store` holds the heap cells the Go map points at; `relays` maps each
URL to the index of its cell, so shared mutable `*RelayInfo` pointers
are modelled faithfully. -/
structure Manager where
  store : List RelayInfo
  relays : List (String × Nat)
  decay : ℚ
  topN : Nat
  initialized : Bool
deriving DecidableEq, Repr

/-- Embeds `manager.NewManager`. -/
def newManager (topN : Nat) (decay : ℚ) : Manager :=
  { store := [], relays := [], decay := decay, topN := topN, initialized := false }

/-- Dereference a relay pointer (cell index). -/
def derefRelay (m : Manager) (a : Nat) : RelayInfo :=
  m.store.getD a defaultRelayInfo

/-- Look up the cell address registered for a URL (Go map indexing). -/
def lookupAddr (m : Manager) (url : String) : Option Nat :=
  (m.relays.find? (fun pr => pr.fst == url)).map Prod.snd

/-- Embeds `Manager.AddRelay` (src/manager/manager.go lines 38-56):
insert if absent with optimistic `SuccessRate = 1.0` and zero counters. -/
def addRelay (m : Manager) (url : String) (now : ℚ) : Manager :=
  match lookupAddr m url with
  | some _ => m
  | none =>
      { m with
        store := m.store ++ [{ url := url, avgResponseTime := 0, successRate := 1,
                               totalAttempts := 0, successfulAttempts := 0,
                               lastChecked := now }],
        relays := m.relays ++ [(url, m.store.length)] }

/-- The per-record mutation performed by `Manager.UpdateHealth`
(src/manager/manager.go lines 58-110) on the cell it found:
increment `TotalAttempts`; on success increment `SuccessfulAttempts`
and fold the response time into the 0.7/0.3 EWMA (taking the sample
directly when the prior average is zero); stamp `LastChecked`; then
recompute `SuccessRate` (decay formula after initialization, simple
ratio before). -/
def updateRelayRecord (initialized : Bool) (decay : ℚ) (r : RelayInfo)
    (success : Bool) (responseTime now : ℚ) : RelayInfo :=
  let total := r.totalAttempts + 1
  let succ := if success then r.successfulAttempts + 1 else r.successfulAttempts
  let avg :=
    if success then
      if r.avgResponseTime = 0 then responseTime
      else r.avgResponseTime * (7/10) + responseTime * (3/10)
    else r.avgResponseTime
  let rate :=
    if initialized then
      r.successRate * decay + (if success then 1 else 0) * (1 - decay)
    else
      if 0 < total then (succ : ℚ) / (total : ℚ) else r.successRate
  { url := r.url, avgResponseTime := avg, successRate := rate,
    totalAttempts := total, successfulAttempts := succ, lastChecked := now }

/-- Embeds `Manager.UpdateHealth`: unknown URLs are logged and ignored;
known URLs have their cell mutated in place through the map pointer. -/
def updateHealth (m : Manager) (url : String) (success : Bool)
    (responseTime now : ℚ) : Manager :=
  match lookupAddr m url with
  | none => m
  | some a =>
      let r := updateRelayRecord m.initialized m.decay (derefRelay m a) success responseTime now
      { m with store := m.store.set a r }

/-- Embeds `Manager.MarkInitialized` (src/manager/manager.go lines 112-119). -/
def markInitialized (m : Manager) : Manager :=
  { m with initialized := true }

/-- Embeds `Manager.CalculateScore` (src/manager/manager.go lines 169-189):
`SuccessRate * 100` minus a response-time penalty of ten points per
second (zero when the average is not positive), halved for endpoints
with fewer than three attempts while the pool is uninitialized. -/
def calculateScore (m : Manager) (r : RelayInfo) : ℚ :=
  let successWeight : ℚ := 100
  let responseTimePenalty : ℚ :=
    if 0 < r.avgResponseTime then r.avgResponseTime * 10 else 0
  let score := r.successRate * successWeight - responseTimePenalty
  if ¬ m.initialized ∧ r.totalAttempts < 3 then score * (1/2) else score

/-- Comparison used by the `sort.Slice` call in `Manager.GetTopRelays`:
relay `a` precedes relay `b` when its composite score is at least as
large (descending order). -/
def scoreOrder (m : Manager) (a b : Nat) : Prop :=
  calculateScore m (derefRelay m b) ≤ calculateScore m (derefRelay m a)

instance scoreOrderDecidable (m : Manager) : DecidableRel (scoreOrder m) :=
  fun a b =>
    inferInstanceAs (Decidable (calculateScore m (derefRelay m b) ≤ calculateScore m (derefRelay m a)))

instance scoreOrderTotal (m : Manager) : IsTotal Nat (scoreOrder m) :=
  ⟨fun a b => le_total (calculateScore m (derefRelay m b)) (calculateScore m (derefRelay m a))⟩

instance scoreOrderTrans (m : Manager) : IsTrans Nat (scoreOrder m) :=
  ⟨fun _ _ _ hab hbc => le_trans hbc hab⟩

/-- Embeds `Manager.GetTopRelays` (src/manager/manager.go lines 121-167):
keep the relays with `TotalAttempts > 0`, sort them by composite score
descending, and return the first `topN` (all of them when there are
fewer).  The result is a list of cell addresses: the Go function
returns the `*RelayInfo` pointers stored in the map, not copies. -/
def getTopRelays (m : Manager) : List Nat :=
  let tested := (m.relays.filter (fun pr => 0 < (derefRelay m pr.snd).totalAttempts)).map Prod.snd
  let sorted := List.insertionSort (scoreOrder m) tested
  if m.topN < sorted.length then sorted.take m.topN else sorted

/-- Embeds `Manager.GetRelayInfo` (src/manager/manager.go lines 224-235):
returns a copy of the record (a value, not a cell address). -/
def getRelayInfo (m : Manager) (url : String) : Option RelayInfo :=
  (lookupAddr m url).map (derefRelay m)

/-- Embeds `Manager.GetRelayCount`. -/
def getRelayCount (m : Manager) : Nat :=
  m.relays.length

/-- Embeds `Manager.GetAllRelays`. -/
def getAllRelays (m : Manager) : List String :=
  m.relays.map Prod.fst

/-- The fields of a nostr event that the broadcaster core reads:
the content-addressed `ID` (the dedup fingerprint) and the `Kind`. -/
structure Event where
  id : String
  kind : ℤ
deriving DecidableEq, Repr

/-- Embeds `broadcaster.Broadcaster` (TTL-cache revision): the dedup
cache maps event IDs to their insertion timestamps (`cacheEntry`),
the bounded channel and the unbounded overflow list hold queued
events, and the monotonic statistics counters are `int64`. -/
structure Broadcaster where
  mandatoryRelays : List String
  eventQueue : List Event
  overflowQueue : List Event
  channelCapacity : Nat
  totalQueued : ℤ
  peakQueueSize : ℤ
  saturationCount : ℤ
  lastSaturation : ℚ
  workerCount : Nat
  eventCache : List (String × ℚ)
  cacheMaxSize : Nat
  cacheTTL : ℚ
  cacheHits : ℤ
  cacheMisses : ℤ
deriving DecidableEq, Repr

/-- Embeds `NewBroadcaster`: channel capacity is `workerCount * 10`
and the cache bound is the hardcoded constant `100000`. -/
def newBroadcaster (mandatoryRelays : List String) (workerCount : Nat)
    (cacheTTL : ℚ) : Broadcaster :=
  { mandatoryRelays := mandatoryRelays,
    eventQueue := [],
    overflowQueue := [],
    channelCapacity := workerCount * 10,
    totalQueued := 0,
    peakQueueSize := 0,
    saturationCount := 0,
    lastSaturation := 0,
    workerCount := workerCount,
    eventCache := [],
    cacheMaxSize := 100000,
    cacheTTL := cacheTTL,
    cacheHits := 0,
    cacheMisses := 0 }

/-- Go map read `b.eventCache[eventID]`. -/
def cacheLookup : List (String × ℚ) → String → Option ℚ
  | [], _ => none
  | (k, ts) :: rest, eventID => if k = eventID then some ts else cacheLookup rest eventID

/-- Go map write `b.eventCache[eventID] = entry`: replaces the entry
when the key is present, otherwise adds a new one. -/
def cacheWrite (cache : List (String × ℚ)) (eventID : String) (now : ℚ) :
    List (String × ℚ) :=
  if (cacheLookup cache eventID).isSome then
    cache.map (fun pr => if pr.fst == eventID then (eventID, now) else pr)
  else
    cache ++ [(eventID, now)]

/-- Embeds `isEventCached`: a present entry older than the TTL counts
as a miss; the hit/miss counters advance on every lookup and the
entries themselves are never modified by a lookup. -/
def isEventCached (b : Broadcaster) (eventID : String) (now : ℚ) :
    Bool × Broadcaster :=
  match cacheLookup b.eventCache eventID with
  | none => (false, { b with cacheMisses := b.cacheMisses + 1 })
  | some ts =>
      if b.cacheTTL < now - ts then
        (false, { b with cacheMisses := b.cacheMisses + 1 })
      else
        (true, { b with cacheHits := b.cacheHits + 1 })

/-- The eviction step at the head of `addEventToCache`: when the
cache is at or above `cacheMaxSize`, the loop deletes entries in
iteration order until it has removed `cacheMaxSize / 5` of them (the
loop body always deletes at least one entry when the map is
non-empty, and stops early when the map runs out). -/
def evictedCache (b : Broadcaster) : List (String × ℚ) :=
  if b.cacheMaxSize ≤ b.eventCache.length then
    b.eventCache.drop
      (if b.eventCache.isEmpty then 0
       else min b.eventCache.length (max (b.cacheMaxSize / 5) 1))
  else b.eventCache

/-- Embeds `addEventToCache`: run the capacity eviction, then write
the new `(fingerprint, now)` entry. -/
def addEventToCache (b : Broadcaster) (eventID : String) (now : ℚ) : Broadcaster :=
  { b with eventCache := cacheWrite (evictedCache b) eventID now }

/-- The compare-and-swap loop that raises `peakQueueSize` to the new
`totalQueued` when it exceeded the previous peak. -/
def pushPeak (b : Broadcaster) : Broadcaster :=
  { b with peakQueueSize := max b.peakQueueSize b.totalQueued }

/-- The saturation bookkeeping of `Broadcast`: when the overflow list
just transitioned from empty to non-empty (its length is exactly 1
after the append) bump `saturationCount` and stamp `lastSaturation`. -/
def saturationStamp (b : Broadcaster) (now : ℚ) : Broadcaster :=
  if b.overflowQueue.length = 1 then
    { b with saturationCount := b.saturationCount + 1, lastSaturation := now }
  else b

/-- The channel/overflow part of `Broadcast`: try the non-blocking
channel send; on success bump `totalQueued` and the peak; when the
channel is full append to the overflow list, bump `totalQueued`,
record the saturation transition, and update the peak. -/
def enqueueCore (b : Broadcaster) (e : Event) (now : ℚ) : Broadcaster :=
  if b.eventQueue.length < b.channelCapacity then
    pushPeak { b with eventQueue := b.eventQueue ++ [e], totalQueued := b.totalQueued + 1 }
  else
    pushPeak (saturationStamp
      { b with overflowQueue := b.overflowQueue ++ [e], totalQueued := b.totalQueued + 1 } now)

/-- Embeds `Broadcast` (the enqueue path after the shutdown check):
record the fingerprint in the dedup cache, then enqueue. -/
def broadcastEnqueue (b : Broadcaster) (e : Event) (now : ℚ) : Broadcaster :=
  enqueueCore (addEventToCache b e.id now) e now

/-- The loop body of `backfillChannel`: while the overflow list is
non-empty and the channel has room, move the overflow head into the
channel. -/
def backfillAux (cap : Nat) : List Event → List Event → List Event × List Event
  | ch, [] => (ch, [])
  | ch, e :: rest =>
      if ch.length < cap then backfillAux cap (ch ++ [e]) rest else (ch, e :: rest)

/-- Embeds `backfillChannel`. -/
def backfillChannel (b : Broadcaster) : Broadcaster :=
  let p := backfillAux b.channelCapacity b.eventQueue b.overflowQueue
  { b with eventQueue := p.fst, overflowQueue := p.snd }

/-- Embeds one worker iteration on a non-empty channel (the receive in
`worker`): take the channel head, decrement `totalQueued`, backfill
from the overflow list (the subsequent fan-out touches only the
manager and the health checker, not the broadcaster state).  A worker
on an empty channel blocks, so the operation is the identity there. -/
def workerDequeue (b : Broadcaster) : Broadcaster :=
  match b.eventQueue with
  | [] => b
  | _ :: rest => backfillChannel { b with eventQueue := rest, totalQueued := b.totalQueued - 1 }

/-- Embeds one sweep of the `cacheCleanup` reaper: delete every entry
strictly older than the TTL. -/
def cacheCleanupSweep (b : Broadcaster) (now : ℚ) : Broadcaster :=
  { b with eventCache := b.eventCache.filter (fun pr => decide (now - pr.snd ≤ b.cacheTTL)) }

/-- Embeds the `RejectEvent` hook installed by `setupRelay`
(src/relay/relay.go lines 207-217): reject with the duplicate reason
string exactly when `IsEventCached` reports a fresh cache entry. -/
def shouldReject (b : Broadcaster) (e : Event) (now : ℚ) :
    (Bool × String) × Broadcaster :=
  if (isEventCached b e.id now).fst then
    ((true, "duplicate: event already broadcast"), (isEventCached b e.id now).snd)
  else ((false, ""), (isEventCached b e.id now).snd)

/-- One ingress submission through the pipeline: the `RejectEvent`
hook runs first; a rejected duplicate goes no further, an accepted
event reaches `handleEvent` (src/relay/relay.go lines 266-281) which
hands it to `Broadcast` (discovery extraction only touches the
manager, so it does not appear in the broadcaster state). -/
def submitEvent (b : Broadcaster) (e : Event) (now : ℚ) : Broadcaster :=
  if (shouldReject b e now).fst.fst then (shouldReject b e now).snd
  else broadcastEnqueue (shouldReject b e now).snd e now

/-- The ingress-side operations that drive the broadcaster state: an
event submission, a worker dequeue, and a reaper sweep. -/
inductive BOp where
  | submit (e : Event) (now : ℚ)
  | dequeue
  | cleanup (now : ℚ)
deriving DecidableEq, Repr

/-- Step function over broadcaster operations. -/
def stepB (b : Broadcaster) : BOp → Broadcaster
  | .submit e now => submitEvent b e now
  | .dequeue => workerDequeue b
  | .cleanup now => cacheCleanupSweep b now

/-- Run a sequence of broadcaster operations. -/
def runB (b : Broadcaster) (ops : List BOp) : Broadcaster :=
  ops.foldl stepB b

/-- Embeds the target-set construction of `broadcastEvent`: a set
keyed by URL is filled with the mandatory relays first and the top-N
relays second, then converted to a list (iteration order determinised
to insertion order). -/
def broadcastTargets (m : Manager) (mandatory : List String) : List String :=
  (mandatory ++ (getTopRelays m).map (fun a => (derefRelay m a).url)).foldl
    (fun acc u => if u ∈ acc then acc else acc ++ [u]) []

/-- Embeds the observable outcome of `broadcastEvent`: the list of
URLs it publishes to (one concurrent publish task per URL) and
whether the empty-target warning fired.  The Go function returns
nothing, so no error can surface to the caller in either case. -/
def broadcastEventRun (m : Manager) (mandatory : List String) :
    List String × Bool :=
  let ts := broadcastTargets m mandatory
  if ts.isEmpty then ([], true) else (ts, false)

/-- Embeds `config.RateLimitConfig` (src/config/config.go lines 15-19). -/
structure RateLimitConfig where
  tokens : ℤ
  interval : ℚ
  max : ℤ
deriving DecidableEq, Repr

/-- Embeds `config.Config` (src/config/config.go lines 26-50).  The
structure carries every field the Go struct has; there is no
cache-size field — only the TTL of the dedup cache is configurable. -/
structure Config where
  seedRelays : List String
  mandatoryRelays : List String
  topNRelays : ℤ
  relayPort : String
  refreshInterval : ℚ
  healthCheckInterval : ℚ
  initialTimeout : ℚ
  successRateDecay : ℚ
  workerCount : Nat
  cacheTTL : ℚ
  verbose : String
  relayName : String
  relayDescription : String
  relayURL : String
  contactPubkey : String
  relayPrivkey : String
  relayIcon : String
  relayBanners : List String
  rateLimitConnection : RateLimitConfig
  rateLimitEventIP : RateLimitConfig
  rateLimitFilterIP : RateLimitConfig
deriving DecidableEq, Repr

/-! ### Concrete states used by witnesses and examples -/

/-- A pool holding a single tested relay "A", used by witnesses. -/
def mgrW : Manager :=
  updateHealth (addRelay (newManager 5 (mkRat 19 20)) "A" 0) "A" true 1 1

/-- A broadcaster whose dedup cache holds the fingerprint "abc"
inserted at time 0, with a 600-second TTL, used by witnesses. -/
def bW7 : Broadcaster :=
  broadcastEnqueue (newBroadcaster [] 2 600) ⟨"abc", 1⟩ 0

/-- The S3 pool record for endpoint A: success 1.0, average 0.05 s. -/
def relayS3A : RelayInfo :=
  { url := "A", avgResponseTime := 1/20, successRate := 1,
    totalAttempts := 5, successfulAttempts := 5, lastChecked := 0 }

/-- The S3 pool record for endpoint B: success 0.8, average 0.02 s. -/
def relayS3B : RelayInfo :=
  { url := "B", avgResponseTime := 1/50, successRate := 4/5,
    totalAttempts := 5, successfulAttempts := 4, lastChecked := 0 }

/-- The S3 pool record for endpoint C: success 0.95, average 0.30 s. -/
def relayS3C : RelayInfo :=
  { url := "C", avgResponseTime := 3/10, successRate := 19/20,
    totalAttempts := 5, successfulAttempts := 5, lastChecked := 0 }

/-- The S3 pool: A, B, C as above with `topN = 2`, initialized. -/
def mgrS3 : Manager :=
  { store := [relayS3A, relayS3B, relayS3C],
    relays := [("A", 0), ("B", 1), ("C", 2)],
    decay := 19/20, topN := 2, initialized := true }

/-- The S4 pool: endpoint X after outcomes [fail, fail, fail] during
the initialization phase. -/
def mgrS4 : Manager :=
  updateHealth (updateHealth (updateHealth (addRelay (newManager 5 (19/20)) "X" 0)
    "X" false 0 1) "X" false 0 2) "X" false 0 3

/-- The queue-accounting invariant of the broadcaster (spec §8):
`total_queued` equals the channel length plus the overflow length,
and never exceeds the recorded peak. -/
def queueInv (b : Broadcaster) : Prop :=
  b.totalQueued = (b.eventQueue.length : ℤ) + (b.overflowQueue.length : ℤ) ∧
  b.totalQueued ≤ b.peakQueueSize

/-- The cache-capacity invariant: the bound is positive and the cache
holds at most that many entries. -/
def cacheInv (b : Broadcaster) : Prop :=
  1 ≤ b.cacheMaxSize ∧ b.eventCache.length ≤ b.cacheMaxSize

/-- The S2 scenario: 25 distinct events submitted while both workers
are stalled (no dequeue operations). -/
def opsS2 : List BOp :=
  (List.range 25).map (fun i => BOp.submit ⟨toString i, 1⟩ 0)

/-- A broadcaster whose dedup cache is exactly at its (small) bound,
used to witness the bulk-eviction mechanism. -/
def bC6full : Broadcaster :=
  { mandatoryRelays := [], eventQueue := [], overflowQueue := [],
    channelCapacity := 20, totalQueued := 0, peakQueueSize := 0,
    saturationCount := 0, lastSaturation := 0, workerCount := 2,
    eventCache := [("a", 0), ("b", 0), ("c", 0), ("d", 0), ("e", 0)],
    cacheMaxSize := 5, cacheTTL := 600, cacheHits := 0, cacheMisses := 0 }

/-- The pool mutations of the manager API: `AddRelay`, `UpdateHealth`
and `MarkInitialized`. -/
inductive PoolOp where
  | add (url : String) (now : ℚ)
  | update (url : String) (success : Bool) (responseTime now : ℚ)
  | markInit
deriving DecidableEq, Repr

/-- Step function over pool operations. -/
def applyPoolOp (m : Manager) : PoolOp → Manager
  | .add url now => addRelay m url now
  | .update url success rt now => updateHealth m url success rt now
  | .markInit => markInitialized m

/-- Run a sequence of pool operations. -/
def runPool (m : Manager) (ops : List PoolOp) : Manager :=
  ops.foldl applyPoolOp m

/-- An operation is well formed when its measured response time is
nonnegative (Go obtains it from `time.Since`, which cannot be
negative). -/
def poolOpWF : PoolOp → Prop
  | .update _ _ rt _ => 0 ≤ rt
  | _ => True

/-- The per-endpoint invariants of the spec:
`0 ≤ successful_attempts ≤ total_attempts`, `0 ≤ success_rate ≤ 1`,
`avg_response_time ≥ 0`. -/
def relayWF (r : RelayInfo) : Prop :=
  0 ≤ r.successfulAttempts ∧ r.successfulAttempts ≤ r.totalAttempts ∧
  0 ≤ r.successRate ∧ r.successRate ≤ 1 ∧ 0 ≤ r.avgResponseTime

/-- Every heap cell of the pool satisfies the endpoint invariants. -/
def managerWF (m : Manager) : Prop :=
  ∀ r ∈ m.store, relayWF r

/-- Every timed operation of the trace happens inside the window
`[T, U]` (worker dequeues carry no timestamp). -/
def opInWindow (T U : ℚ) : BOp → Prop
  | .submit _ now => T ≤ now ∧ now ≤ U
  | .cleanup now => T ≤ now ∧ now ≤ U
  | .dequeue => True

/-- Every timed operation of the trace happens no later than the
given deadline. -/
def opBeforeDeadline (deadline : ℚ) : BOp → Prop
  | .submit _ now => now ≤ deadline
  | .cleanup now => now ≤ deadline
  | .dequeue => True

/-- The dedup cache stays below its capacity at every step of the
trace, so the bulk eviction of `addEventToCache` never fires (the
claim's "not evicted by capacity pressure" proviso). -/
def noPressure : Broadcaster → List BOp → Prop
  | _, [] => True
  | b, op :: rest => b.eventCache.length < b.cacheMaxSize ∧ noPressure (stepB b op) rest

/-- How many submissions of fingerprint `F` in the trace are accepted
by the ingress pipeline (pass the duplicate check) — each such step,
and only such steps, advances `total_queued` for `F`. -/
def countIngest (F : String) : Broadcaster → List BOp → Nat
  | _, [] => 0
  | b, op :: rest =>
      (match op with
       | .submit e now =>
           if e.id = F ∧ (isEventCached b e.id now).fst = false then 1 else 0
       | _ => 0) + countIngest F (stepB b op) rest

/-- A small pool history exercising all three mutations, used by the
C8 witness. -/
def opsW8 : List PoolOp :=
  [PoolOp.add "A" 0, PoolOp.update "A" true 1 2, PoolOp.markInit,
   PoolOp.update "A" false 0 3]

/-- Well-formedness of the pointer structure of a pool: URL keys are
unique, every registered address is a live cell, and each cell carries
the URL it is registered under.  Every pool built through the manager
API satisfies this. -/
def managerPtrWF (m : Manager) : Prop :=
  (m.relays.map Prod.fst).Nodup ∧
  ∀ pr ∈ m.relays, pr.snd < m.store.length ∧ (derefRelay m pr.snd).url = pr.fst

/-! ### Helper lemmas about the deduplicating fold used by `broadcastTargets` -/

/-- The fold that converts the URL-keyed set to a list keeps the
accumulator duplicate-free. -/
lemma dedupFold_nodup (l : List String) :
    ∀ acc : List String, acc.Nodup →
      (l.foldl (fun acc u => if u ∈ acc then acc else acc ++ [u]) acc).Nodup := by
  induction l with
  | nil => intro acc h; simpa using h
  | cons v t ih =>
      intro acc h
      simp only [List.foldl_cons]
      by_cases hv : v ∈ acc
      · simpa [hv] using ih acc h
      · have : (acc ++ [v]).Nodup := by
          simp [List.nodup_append, h, hv]
        simpa [hv] using ih (acc ++ [v]) this
lemma dedupFold_mem (l : List String) :
    ∀ (acc : List String) (u : String),
      u ∈ l.foldl (fun acc u => if u ∈ acc then acc else acc ++ [u]) acc ↔
        u ∈ acc ∨ u ∈ l := by
  induction l with
  | nil => intro acc u; simp
  | cons v t ih =>
      intro acc u
      simp only [List.foldl_cons]
      by_cases hv : v ∈ acc
      · rw [if_pos hv, ih]
        constructor
        · rintro (h | h)
          · exact Or.inl h
          · exact Or.inr (List.mem_cons_of_mem _ h)
        · rintro (h | h)
          · exact Or.inl h
          · rcases List.mem_cons.1 h with rfl | h
            · exact Or.inl hv
            · exact Or.inr h
      · rw [if_neg hv, ih]
        constructor
        · rintro (h | h)
          · rcases List.mem_append.1 h with h | h
            · exact Or.inl h
            · simp at h
              exact Or.inr (by simp [h])
          · exact Or.inr (List.mem_cons_of_mem _ h)
        · rintro (h | h)
          · exact Or.inl (List.mem_append.2 (Or.inl h))
          · rcases List.mem_cons.1 h with rfl | h
            · exact Or.inl (by simp)
            · exact Or.inr h

/-! ### Case lemmas for `isEventCached` -/

lemma isEventCached_none {b : Broadcaster} {id : String} {now : ℚ}
    (h : cacheLookup b.eventCache id = none) :
    isEventCached b id now = (false, { b with cacheMisses := b.cacheMisses + 1 }) := by
  unfold isEventCached
  rw [h]
lemma isEventCached_stale {b : Broadcaster} {id : String} {now ts : ℚ}
    (h : cacheLookup b.eventCache id = some ts) (h2 : b.cacheTTL < now - ts) :
    isEventCached b id now = (false, { b with cacheMisses := b.cacheMisses + 1 }) := by
  unfold isEventCached
  rw [h]
  simp [h2]
lemma isEventCached_fresh {b : Broadcaster} {id : String} {now ts : ℚ}
    (h : cacheLookup b.eventCache id = some ts) (h2 : ¬ b.cacheTTL < now - ts) :
    isEventCached b id now = (true, { b with cacheHits := b.cacheHits + 1 }) := by
  unfold isEventCached
  rw [h]
  simp [h2]

/-! ### Frame lemmas: which fields each operation leaves unchanged -/

lemma isEventCached_frame (b : Broadcaster) (id : String) (now : ℚ) :
    (isEventCached b id now).snd.eventQueue = b.eventQueue ∧
    (isEventCached b id now).snd.overflowQueue = b.overflowQueue ∧
    (isEventCached b id now).snd.totalQueued = b.totalQueued ∧
    (isEventCached b id now).snd.peakQueueSize = b.peakQueueSize ∧
    (isEventCached b id now).snd.saturationCount = b.saturationCount ∧
    (isEventCached b id now).snd.channelCapacity = b.channelCapacity ∧
    (isEventCached b id now).snd.eventCache = b.eventCache ∧
    (isEventCached b id now).snd.cacheMaxSize = b.cacheMaxSize ∧
    (isEventCached b id now).snd.cacheTTL = b.cacheTTL := by
  rcases h : cacheLookup b.eventCache id with _ | ts
  · rw [isEventCached_none h]
    exact ⟨rfl, rfl, rfl, rfl, rfl, rfl, rfl, rfl, rfl⟩
  · by_cases hts : b.cacheTTL < now - ts
    · rw [isEventCached_stale h hts]
      exact ⟨rfl, rfl, rfl, rfl, rfl, rfl, rfl, rfl, rfl⟩
    · rw [isEventCached_fresh h hts]
      exact ⟨rfl, rfl, rfl, rfl, rfl, rfl, rfl, rfl, rfl⟩

lemma addEventToCache_frame (b : Broadcaster) (id : String) (now : ℚ) :
    (addEventToCache b id now).eventQueue = b.eventQueue ∧
    (addEventToCache b id now).overflowQueue = b.overflowQueue ∧
    (addEventToCache b id now).totalQueued = b.totalQueued ∧
    (addEventToCache b id now).peakQueueSize = b.peakQueueSize ∧
    (addEventToCache b id now).saturationCount = b.saturationCount ∧
    (addEventToCache b id now).channelCapacity = b.channelCapacity ∧
    (addEventToCache b id now).cacheMaxSize = b.cacheMaxSize ∧
    (addEventToCache b id now).cacheTTL = b.cacheTTL := by
  unfold addEventToCache
  exact ⟨rfl, rfl, rfl, rfl, rfl, rfl, rfl, rfl⟩

lemma shouldReject_fst (b : Broadcaster) (e : Event) (now : ℚ) :
    (shouldReject b e now).fst.fst = (isEventCached b e.id now).fst := by
  unfold shouldReject
  cases hf : (isEventCached b e.id now).fst <;> simp [hf]

lemma shouldReject_snd (b : Broadcaster) (e : Event) (now : ℚ) :
    (shouldReject b e now).snd = (isEventCached b e.id now).snd := by
  unfold shouldReject
  cases hf : (isEventCached b e.id now).fst <;> simp [hf]

lemma submitEvent_rejected {b : Broadcaster} {e : Event} {now : ℚ}
    (hc : (isEventCached b e.id now).fst = true) :
    submitEvent b e now = (isEventCached b e.id now).snd := by
  unfold submitEvent
  simp [shouldReject_fst, hc, shouldReject_snd]

lemma submitEvent_accepted {b : Broadcaster} {e : Event} {now : ℚ}
    (hc : (isEventCached b e.id now).fst = false) :
    submitEvent b e now = broadcastEnqueue (isEventCached b e.id now).snd e now := by
  unfold submitEvent
  simp [shouldReject_fst, hc, shouldReject_snd]

lemma enqueueCore_config (b : Broadcaster) (e : Event) (now : ℚ) :
    (enqueueCore b e now).channelCapacity = b.channelCapacity ∧
    (enqueueCore b e now).cacheMaxSize = b.cacheMaxSize ∧
    (enqueueCore b e now).cacheTTL = b.cacheTTL ∧
    (enqueueCore b e now).eventCache = b.eventCache := by
  unfold enqueueCore pushPeak saturationStamp
  split_ifs <;> exact ⟨rfl, rfl, rfl, rfl⟩

lemma broadcastEnqueue_config (b : Broadcaster) (e : Event) (now : ℚ) :
    (broadcastEnqueue b e now).channelCapacity = b.channelCapacity ∧
    (broadcastEnqueue b e now).cacheMaxSize = b.cacheMaxSize ∧
    (broadcastEnqueue b e now).cacheTTL = b.cacheTTL ∧
    (broadcastEnqueue b e now).eventCache = (addEventToCache b e.id now).eventCache := by
  obtain ⟨h1, h2, h3, h4, h5, h6, h7, h8⟩ := addEventToCache_frame b e.id now
  obtain ⟨g1, g2, g3, g4⟩ := enqueueCore_config (addEventToCache b e.id now) e now
  exact ⟨g1.trans h6, g2.trans h7, g3.trans h8, g4⟩

lemma stepB_config (b : Broadcaster) (op : BOp) :
    (stepB b op).channelCapacity = b.channelCapacity ∧
    (stepB b op).cacheMaxSize = b.cacheMaxSize ∧
    (stepB b op).cacheTTL = b.cacheTTL := by
  cases op with
  | submit e now =>
      simp only [stepB]
      rcases hc : (isEventCached b e.id now).fst with _ | _
      · rw [submitEvent_accepted hc]
        obtain ⟨g1, g2, g3, _⟩ := broadcastEnqueue_config (isEventCached b e.id now).snd e now
        obtain ⟨_, _, _, _, _, f6, _, f8, f9⟩ := isEventCached_frame b e.id now
        exact ⟨g1.trans f6, g2.trans f8, g3.trans f9⟩
      · rw [submitEvent_rejected hc]
        obtain ⟨_, _, _, _, _, f6, _, f8, f9⟩ := isEventCached_frame b e.id now
        exact ⟨f6, f8, f9⟩
  | dequeue =>
      simp only [stepB, workerDequeue]
      rcases hq : b.eventQueue with _ | ⟨x, rest⟩
      · exact ⟨rfl, rfl, rfl⟩
      · exact ⟨rfl, rfl, rfl⟩
  | cleanup now =>
      exact ⟨rfl, rfl, rfl⟩

lemma runB_config (ops : List BOp) : ∀ b : Broadcaster,
    (runB b ops).channelCapacity = b.channelCapacity ∧
    (runB b ops).cacheMaxSize = b.cacheMaxSize ∧
    (runB b ops).cacheTTL = b.cacheTTL := by
  induction ops with
  | nil => intro b; exact ⟨rfl, rfl, rfl⟩
  | cons op rest ih =>
      intro b
      obtain ⟨i1, i2, i3⟩ := ih (stepB b op)
      obtain ⟨s1, s2, s3⟩ := stepB_config b op
      exact ⟨i1.trans s1, i2.trans s2, i3.trans s3⟩

/-! ### The queue-accounting invariant is preserved by every operation -/

lemma backfillAux_length (cap : Nat) : ∀ (ov ch : List Event),
    (backfillAux cap ch ov).fst.length + (backfillAux cap ch ov).snd.length =
      ch.length + ov.length := by
  intro ov
  induction ov with
  | nil => intro ch; simp [backfillAux]
  | cons e rest ih =>
      intro ch
      unfold backfillAux
      by_cases h : ch.length < cap
      · rw [if_pos h]
        have := ih (ch ++ [e])
        simp at this
        simp [this]
        omega
      · rw [if_neg h]

lemma queueInv_enqueueCore (b : Broadcaster) (e : Event) (now : ℚ)
    (h : queueInv b) : queueInv (enqueueCore b e now) := by
  obtain ⟨h1, h2⟩ := h
  unfold enqueueCore pushPeak saturationStamp
  split_ifs <;>
    refine ⟨?_, ?_⟩ <;>
    simp_all <;>
    omega

lemma queueInv_broadcastEnqueue (b : Broadcaster) (e : Event) (now : ℚ)
    (h : queueInv b) : queueInv (broadcastEnqueue b e now) := by
  obtain ⟨f1, f2, f3, f4, f5, f6, f7, f8⟩ := addEventToCache_frame b e.id now
  apply queueInv_enqueueCore
  exact ⟨by rw [f1, f2, f3]; exact h.1, by rw [f3, f4]; exact h.2⟩

lemma queueInv_stepB (b : Broadcaster) (op : BOp) (h : queueInv b) :
    queueInv (stepB b op) := by
  cases op with
  | submit e now =>
      simp only [stepB]
      obtain ⟨f1, f2, f3, f4, _, _, _, _, _⟩ := isEventCached_frame b e.id now
      rcases hc : (isEventCached b e.id now).fst with _ | _
      · rw [submitEvent_accepted hc]
        apply queueInv_broadcastEnqueue
        exact ⟨by rw [f1, f2, f3]; exact h.1, by rw [f3, f4]; exact h.2⟩
      · rw [submitEvent_rejected hc]
        exact ⟨by rw [f1, f2, f3]; exact h.1, by rw [f3, f4]; exact h.2⟩
  | dequeue =>
      simp only [stepB, workerDequeue]
      rcases hq : b.eventQueue with _ | ⟨x, rest⟩
      · exact h
      · obtain ⟨h1, h2⟩ := h
        rw [hq] at h1
        simp at h1
        have hlen := backfillAux_length b.channelCapacity b.overflowQueue rest
        refine ⟨?_, ?_⟩
        · show (b.totalQueued - 1 : ℤ) =
            ((backfillAux b.channelCapacity rest b.overflowQueue).fst.length : ℤ) +
              ((backfillAux b.channelCapacity rest b.overflowQueue).snd.length : ℤ)
          omega
        · show (b.totalQueued - 1 : ℤ) ≤ b.peakQueueSize
          omega
  | cleanup now =>
      exact ⟨h.1, h.2⟩

lemma queueInv_runB (ops : List BOp) : ∀ b : Broadcaster,
    queueInv b → queueInv (runB b ops) := by
  induction ops with
  | nil => intro b h; exact h
  | cons op rest ih => intro b h; exact ih (stepB b op) (queueInv_stepB b op h)

/-! ### The cache-capacity invariant is preserved by every operation -/

lemma cacheWrite_length (c : List (String × ℚ)) (id : String) (now : ℚ) :
    (cacheWrite c id now).length =
      if (cacheLookup c id).isSome then c.length else c.length + 1 := by
  unfold cacheWrite
  split_ifs <;> simp

lemma evictedCache_length_lt (b : Broadcaster)
    (h1 : 1 ≤ b.cacheMaxSize) (h2 : b.eventCache.length ≤ b.cacheMaxSize) :
    (evictedCache b).length < b.cacheMaxSize := by
  unfold evictedCache
  by_cases hfull : b.cacheMaxSize ≤ b.eventCache.length
  · rw [if_pos hfull]
    have hne : ¬ (b.eventCache.isEmpty = true) := by
      simp only [List.isEmpty_iff_length_eq_zero]
      omega
    rw [if_neg hne]
    simp only [List.length_drop]
    omega
  · rw [if_neg hfull]
    omega

lemma addEventToCache_length (b : Broadcaster) (id : String) (now : ℚ)
    (h1 : 1 ≤ b.cacheMaxSize) (h2 : b.eventCache.length ≤ b.cacheMaxSize) :
    (addEventToCache b id now).eventCache.length ≤ b.cacheMaxSize := by
  have hlt := evictedCache_length_lt b h1 h2
  show (cacheWrite (evictedCache b) id now).length ≤ b.cacheMaxSize
  rw [cacheWrite_length]
  split_ifs <;> omega

lemma cacheInv_stepB (b : Broadcaster) (op : BOp) (h : cacheInv b) :
    cacheInv (stepB b op) := by
  obtain ⟨hcfg1, hcfg2, _⟩ := stepB_config b op
  cases op with
  | submit e now =>
      obtain ⟨_, _, _, _, _, _, f7, f8, _⟩ := isEventCached_frame b e.id now
      refine ⟨by rw [hcfg2]; exact h.1, ?_⟩
      rw [hcfg2]
      show (submitEvent b e now).eventCache.length ≤ b.cacheMaxSize
      rcases hc : (isEventCached b e.id now).fst with _ | _
      · rw [submitEvent_accepted hc]
        obtain ⟨_, _, _, g4⟩ := broadcastEnqueue_config (isEventCached b e.id now).snd e now
        rw [g4]
        have := addEventToCache_length (isEventCached b e.id now).snd e.id now
          (by rw [f8]; exact h.1) (by rw [f7, f8]; exact h.2)
        rw [f8] at this
        exact this
      · rw [submitEvent_rejected hc, f7]
        exact h.2
  | dequeue =>
      refine ⟨by rw [hcfg2]; exact h.1, ?_⟩
      rw [hcfg2]
      show (workerDequeue b).eventCache.length ≤ b.cacheMaxSize
      unfold workerDequeue
      rcases hq : b.eventQueue with _ | ⟨x, rest⟩
      · exact h.2
      · exact h.2
  | cleanup now =>
      refine ⟨by rw [hcfg2]; exact h.1, ?_⟩
      rw [hcfg2]
      show (cacheCleanupSweep b now).eventCache.length ≤ b.cacheMaxSize
      unfold cacheCleanupSweep
      calc (b.eventCache.filter _).length ≤ b.eventCache.length := List.length_filter_le _ _
        _ ≤ _ := h.2

lemma cacheInv_runB (ops : List BOp) : ∀ b : Broadcaster,
    cacheInv b → cacheInv (runB b ops) := by
  induction ops with
  | nil => intro b h; exact h
  | cons op rest ih => intro b h; exact ih (stepB b op) (cacheInv_stepB b op h)


/-! ### Claim theorems -/

/-- C2: for every event dequeued for fan-out, the set of URLs the
broadcaster attempts to publish to is exactly the union of
`Pool.top()` and the configured mandatory relay list, deduplicated by
URL (no URL is published to twice for the same event), and when this
union is empty the event is discarded with a logged warning and no
error surfaces to the caller. -/
theorem fanout_target_set (m : Manager) (mandatory : List String) :
    (broadcastTargets m mandatory).Nodup ∧
    (∀ u, u ∈ broadcastTargets m mandatory ↔
        u ∈ mandatory ∨ ∃ a ∈ getTopRelays m, (derefRelay m a).url = u) ∧
    (broadcastTargets m mandatory = [] →
        broadcastEventRun m mandatory = ([], true)) ∧
    (broadcastTargets m mandatory ≠ [] →
        (broadcastEventRun m mandatory).fst = broadcastTargets m mandatory ∧
        (broadcastEventRun m mandatory).snd = false) := by
  refine ⟨?_, ?_, ?_, ?_⟩
  · exact dedupFold_nodup _ [] (by simp)
  · intro u
    rw [broadcastTargets, dedupFold_mem]
    simp [List.mem_append, eq_comm]
  · intro h
    simp [broadcastEventRun, h]
  · intro h
    simp [broadcastEventRun, List.isEmpty_iff, h]

/-- Witness for C2: a pool with one tested relay "A" and mandatory
list ["M", "A"] gives the duplicate-free target set; instantiating the
theorem at it. -/
theorem fanout_target_set_witness :
    (broadcastTargets mgrW ["M", "A"]).Nodup ∧
    (∀ u, u ∈ broadcastTargets mgrW ["M", "A"] ↔
        u ∈ ["M", "A"] ∨ ∃ a ∈ getTopRelays mgrW, (derefRelay mgrW a).url = u) ∧
    (broadcastTargets mgrW ["M", "A"] = [] →
        broadcastEventRun mgrW ["M", "A"] = ([], true)) ∧
    (broadcastTargets mgrW ["M", "A"] ≠ [] →
        (broadcastEventRun mgrW ["M", "A"]).fst = broadcastTargets mgrW ["M", "A"] ∧
        (broadcastEventRun mgrW ["M", "A"]).snd = false) :=
  fanout_target_set mgrW ["M", "A"]

/-- C7: `should_reject` (the `RejectEvent` hook) returns true exactly
when `is_cached(event.id)` holds, its reason string carries the
machine-readable `duplicate` label, `is_cached` is true exactly when
the fingerprint is present with age at most the TTL, a lookup never
modifies the cache entries (no refresh), and each lookup advances the
hit counter when it returns true and the miss counter otherwise. -/
theorem duplicate_rejection_semantics (b : Broadcaster) (e : Event) (now : ℚ) :
    ((shouldReject b e now).fst.fst = true ↔ (isEventCached b e.id now).fst = true) ∧
    ((isEventCached b e.id now).fst = true ↔
        ∃ ts, cacheLookup b.eventCache e.id = some ts ∧ now - ts ≤ b.cacheTTL) ∧
    ((shouldReject b e now).fst.fst = true →
        (shouldReject b e now).fst.snd = "duplicate: event already broadcast" ∧
        ∃ rest, (shouldReject b e now).fst.snd = "duplicate" ++ rest) ∧
    ((isEventCached b e.id now).snd.eventCache = b.eventCache) ∧
    ((isEventCached b e.id now).fst = true →
        (isEventCached b e.id now).snd.cacheHits = b.cacheHits + 1 ∧
        (isEventCached b e.id now).snd.cacheMisses = b.cacheMisses) ∧
    ((isEventCached b e.id now).fst = false →
        (isEventCached b e.id now).snd.cacheMisses = b.cacheMisses + 1 ∧
        (isEventCached b e.id now).snd.cacheHits = b.cacheHits) := by
  rcases h : cacheLookup b.eventCache e.id with _ | ts
  · rw [shouldReject, isEventCached_none h]
    simp [h]
  · by_cases hts : b.cacheTTL < now - ts
    · rw [shouldReject, isEventCached_stale h hts]
      simp [h]
      linarith
    · rw [shouldReject, isEventCached_fresh h hts]
      simp [h]
      exact ⟨by linarith, ": event already broadcast", by decide⟩

/-- Witness for C7: instantiating the theorem at a broadcaster whose
cache holds `("abc", 0)`, probed at time 1 with TTL 600. -/
theorem duplicate_rejection_semantics_witness :
    ((shouldReject bW7 ⟨"abc", 1⟩ 1).fst.fst = true ↔ (isEventCached bW7 "abc" 1).fst = true) ∧
    ((isEventCached bW7 "abc" 1).fst = true ↔
        ∃ ts, cacheLookup bW7.eventCache "abc" = some ts ∧ 1 - ts ≤ bW7.cacheTTL) ∧
    ((shouldReject bW7 ⟨"abc", 1⟩ 1).fst.fst = true →
        (shouldReject bW7 ⟨"abc", 1⟩ 1).fst.snd = "duplicate: event already broadcast" ∧
        ∃ rest, (shouldReject bW7 ⟨"abc", 1⟩ 1).fst.snd = "duplicate" ++ rest) ∧
    ((isEventCached bW7 "abc" 1).snd.eventCache = bW7.eventCache) ∧
    ((isEventCached bW7 "abc" 1).fst = true →
        (isEventCached bW7 "abc" 1).snd.cacheHits = bW7.cacheHits + 1 ∧
        (isEventCached bW7 "abc" 1).snd.cacheMisses = bW7.cacheMisses) ∧
    ((isEventCached bW7 "abc" 1).fst = false →
        (isEventCached bW7 "abc" 1).snd.cacheMisses = bW7.cacheMisses + 1 ∧
        (isEventCached bW7 "abc" 1).snd.cacheHits = bW7.cacheHits) :=
  duplicate_rejection_semantics bW7 ⟨"abc", 1⟩ 1

/-- Setting a cell and reading it back through `getD`. -/
lemma getD_set_self {α : Type} : ∀ (l : List α) (i : Nat) (x d : α),
    i < l.length → (l.set i x).getD i d = x := by
  intro l
  induction l with
  | nil => intro i x d h; simp at h
  | cons a t ih =>
      intro i x d h
      cases i with
      | zero => rfl
      | succ j =>
          simp only [List.set_cons_succ, List.getD, List.getElem?_cons_succ]
          have := ih j x d (by simpa using h)
          simpa [List.getD] using this

/-- Every address returned by `getTopRelays` comes from a registered,
tested relay entry. -/
lemma mem_getTopRelays {m : Manager} {a : Nat} (h : a ∈ getTopRelays m) :
    (∃ pr ∈ m.relays, pr.snd = a) ∧ 0 < (derefRelay m a).totalAttempts := by
  have hsorted : a ∈ List.insertionSort (scoreOrder m)
      ((m.relays.filter (fun pr => 0 < (derefRelay m pr.snd).totalAttempts)).map Prod.snd) := by
    unfold getTopRelays at h
    by_cases hlen : m.topN <
        (List.insertionSort (scoreOrder m)
          ((m.relays.filter (fun pr => 0 < (derefRelay m pr.snd).totalAttempts)).map Prod.snd)).length
    · rw [if_pos hlen] at h
      exact List.take_subset _ _ h
    · rw [if_neg hlen] at h
      exact h
  have htested : a ∈ (m.relays.filter
      (fun pr => 0 < (derefRelay m pr.snd).totalAttempts)).map Prod.snd :=
    (List.perm_insertionSort (scoreOrder m) _).mem_iff.1 hsorted
  rcases List.mem_map.1 htested with ⟨pr, hpr, rfl⟩
  rcases List.mem_filter.1 hpr with ⟨hmem, hdec⟩
  exact ⟨⟨pr, hmem, rfl⟩, of_decide_eq_true hdec⟩


/-- C3: the composite score equals `success_rate * 100` minus the
average response time in seconds times 10, halved exactly when the
pool is uninitialized and the endpoint has fewer than three attempts;
`top()` returns at most `topN` endpoints, all tested
(`total_attempts > 0`), in descending score order; and on the S3 pool
(A: 1.0/0.05 s, B: 0.8/0.02 s, C: 0.95/0.30 s) with `topN = 2` the
result is `[A, C]`. -/
theorem score_and_top_ranking :
    (∀ (m : Manager) (r : RelayInfo), 0 ≤ r.avgResponseTime →
        calculateScore m r =
          (if ¬ m.initialized ∧ r.totalAttempts < 3 then
            (r.successRate * 100 - r.avgResponseTime * 10) * (1/2)
          else r.successRate * 100 - r.avgResponseTime * 10)) ∧
    (∀ m : Manager, (getTopRelays m).length ≤ m.topN) ∧
    (∀ (m : Manager) (a : Nat), a ∈ getTopRelays m → 0 < (derefRelay m a).totalAttempts) ∧
    (∀ m : Manager, (getTopRelays m).Pairwise (scoreOrder m)) ∧
    ((getTopRelays mgrS3).map (fun a => (derefRelay mgrS3 a).url) = ["A", "C"]) := by
  refine ⟨?_, ?_, ?_, ?_, ?_⟩
  · intro m r h
    by_cases hp : 0 < r.avgResponseTime
    · simp [calculateScore, hp]
    · have h0 : r.avgResponseTime = 0 := le_antisymm (not_lt.1 hp) h
      simp [calculateScore, hp, h0]
  · intro m
    unfold getTopRelays
    by_cases hlen : m.topN <
        (List.insertionSort (scoreOrder m)
          ((m.relays.filter (fun pr => 0 < (derefRelay m pr.snd).totalAttempts)).map Prod.snd)).length
    · rw [if_pos hlen]
      simp
    · rw [if_neg hlen]
      omega
  · intro m a h
    exact (mem_getTopRelays h).2
  · intro m
    have hs : (List.insertionSort (scoreOrder m)
        ((m.relays.filter (fun pr => 0 < (derefRelay m pr.snd).totalAttempts)).map
          Prod.snd)).Pairwise (scoreOrder m) :=
      List.sorted_insertionSort (scoreOrder m) _
    unfold getTopRelays
    by_cases hlen : m.topN <
        (List.insertionSort (scoreOrder m)
          ((m.relays.filter (fun pr => 0 < (derefRelay m pr.snd).totalAttempts)).map Prod.snd)).length
    · rw [if_pos hlen]
      exact hs.sublist (List.take_sublist _ _)
    · rw [if_neg hlen]
      exact hs
  · norm_num [getTopRelays, mgrS3, derefRelay, List.insertionSort, List.orderedInsert,
      scoreOrder, calculateScore, defaultRelayInfo, relayS3A, relayS3B, relayS3C]

/-- Witness for C3: the score formula instantiated at the S3 pool and
endpoint A, whose average response time is nonnegative. -/
theorem score_and_top_ranking_witness :
    calculateScore mgrS3 relayS3A =
      (if ¬ mgrS3.initialized ∧ relayS3A.totalAttempts < 3 then
        (relayS3A.successRate * 100 - relayS3A.avgResponseTime * 10) * (1/2)
      else relayS3A.successRate * 100 - relayS3A.avgResponseTime * 10) :=
  score_and_top_ranking.1 mgrS3 relayS3A (by norm_num [relayS3A])


/-- C4: `update_health` sets the success rate to the simple ratio
`successful / total` while the pool is uninitialized and to
`prior * decay + observation * (1 - decay)` after `mark_initialized`;
on the S4 trace with decay 0.95 the rate is 0 after three failures,
0.05 after the next success, and 0.0975 after one more. -/
theorem success_rate_update_semantics :
    (∀ (m : Manager) (url : String) (a : Nat) (success : Bool) (rt now : ℚ),
        lookupAddr m url = some a → a < m.store.length →
        0 ≤ (derefRelay m a).totalAttempts →
        (derefRelay (updateHealth m url success rt now) a).successRate =
          (if m.initialized then
            (derefRelay m a).successRate * m.decay +
              (if success then 1 else 0) * (1 - m.decay)
          else
            (((derefRelay m a).successfulAttempts + (if success then 1 else 0) : ℤ) : ℚ) /
              (((derefRelay m a).totalAttempts + 1 : ℤ) : ℚ))) ∧
    ((getRelayInfo mgrS4 "X").map (fun r => r.successRate) = some 0) ∧
    ((getRelayInfo (updateHealth (markInitialized mgrS4) "X" true 1 4) "X").map
        (fun r => r.successRate) = some (1/20)) ∧
    ((getRelayInfo (updateHealth (updateHealth (markInitialized mgrS4) "X" true 1 4)
        "X" true 1 5) "X").map (fun r => r.successRate) = some (39/400)) := by
  refine ⟨?_, ?_, ?_, ?_⟩
  · intro m url a success rt now hl ha htot
    unfold updateHealth
    rw [hl]
    simp only [derefRelay] at *
    rw [getD_set_self _ _ _ _ ha]
    unfold updateRelayRecord
    by_cases hi : m.initialized
    · simp [hi]
    · have hpos : (0 : ℤ) < (m.store.getD a defaultRelayInfo).totalAttempts + 1 := by omega
      simp only [hi, if_false, if_pos hpos]
      cases success <;> push_cast <;> norm_num
  · norm_num [mgrS4, getRelayInfo, updateHealth, markInitialized, addRelay, newManager,
      lookupAddr, derefRelay, updateRelayRecord, defaultRelayInfo]
  · norm_num [mgrS4, getRelayInfo, updateHealth, markInitialized, addRelay, newManager,
      lookupAddr, derefRelay, updateRelayRecord, defaultRelayInfo]
  · norm_num [mgrS4, getRelayInfo, updateHealth, markInitialized, addRelay, newManager,
      lookupAddr, derefRelay, updateRelayRecord, defaultRelayInfo]

/-- Witness for C4: the update formula instantiated at the initialized
S4 pool, endpoint X (address 0), for the first success at time 4. -/
theorem success_rate_update_semantics_witness :
    (derefRelay (updateHealth (markInitialized mgrS4) "X" true 1 4) 0).successRate =
      (if (markInitialized mgrS4).initialized then
        (derefRelay (markInitialized mgrS4) 0).successRate * (markInitialized mgrS4).decay +
          (if true then 1 else 0) * (1 - (markInitialized mgrS4).decay)
      else
        (((derefRelay (markInitialized mgrS4) 0).successfulAttempts + (if true then 1 else 0) : ℤ) : ℚ) /
          (((derefRelay (markInitialized mgrS4) 0).totalAttempts + 1 : ℤ) : ℚ)) :=
  success_rate_update_semantics.1 (markInitialized mgrS4) "X" 0 true 1 4
    (by decide) (by decide) (by decide)

lemma enqueueCore_overflow (b : Broadcaster) (e : Event) (now : ℚ) :
    (enqueueCore b e now).overflowQueue =
      (if b.eventQueue.length < b.channelCapacity then b.overflowQueue
       else b.overflowQueue ++ [e]) := by
  unfold enqueueCore pushPeak saturationStamp
  split_ifs <;> rfl

lemma pushPeak_saturation (b : Broadcaster) :
    (pushPeak b).saturationCount = b.saturationCount := rfl

lemma saturationStamp_count (b : Broadcaster) (now : ℚ) :
    (saturationStamp b now).saturationCount =
      b.saturationCount + (if b.overflowQueue.length = 1 then 1 else 0) := by
  unfold saturationStamp
  split_ifs <;> simp

lemma enqueueCore_saturation (b : Broadcaster) (e : Event) (now : ℚ) :
    (enqueueCore b e now).saturationCount =
      b.saturationCount +
        (if b.channelCapacity ≤ b.eventQueue.length ∧ b.overflowQueue = [] then 1
         else 0) := by
  unfold enqueueCore
  by_cases hch : b.eventQueue.length < b.channelCapacity
  · have hcond : ¬ (b.channelCapacity ≤ b.eventQueue.length ∧ b.overflowQueue = []) := by
      rintro ⟨hc, _⟩
      omega
    rw [if_pos hch, if_neg hcond, pushPeak_saturation]
    simp
  · rw [if_neg hch, pushPeak_saturation, saturationStamp_count]
    by_cases hov : b.overflowQueue = []
    · have hcond : b.channelCapacity ≤ b.eventQueue.length ∧ b.overflowQueue = [] :=
        ⟨not_lt.1 hch, hov⟩
    
      simp [hov, hcond]
    · have hlen : b.overflowQueue.length ≠ 0 := fun h0 => hov (List.length_eq_zero.1 h0)
      have hcond : ¬ (b.channelCapacity ≤ b.eventQueue.length ∧ b.overflowQueue = []) := by
        rintro ⟨_, hc⟩
        exact hov hc
      simp only [List.length_append, List.length_cons, List.length_nil, if_neg hcond]
      rw [if_neg (by omega : ¬ (b.overflowQueue.length + (0 + 1) = 1))]

lemma broadcastEnqueue_overflow (b : Broadcaster) (e : Event) (now : ℚ) :
    (broadcastEnqueue b e now).overflowQueue =
      (if b.eventQueue.length < b.channelCapacity then b.overflowQueue
       else b.overflowQueue ++ [e]) := by
  obtain ⟨f1, f2, f3, f4, f5, f6, f7, f8⟩ := addEventToCache_frame b e.id now
  show (enqueueCore (addEventToCache b e.id now) e now).overflowQueue = _
  rw [enqueueCore_overflow, f1, f2, f6]

lemma broadcastEnqueue_saturation (b : Broadcaster) (e : Event) (now : ℚ) :
    (broadcastEnqueue b e now).saturationCount =
      b.saturationCount +
        (if b.channelCapacity ≤ b.eventQueue.length ∧ b.overflowQueue = [] then 1
         else 0) := by
  obtain ⟨f1, f2, f3, f4, f5, f6, f7, f8⟩ := addEventToCache_frame b e.id now
  show (enqueueCore (addEventToCache b e.id now) e now).saturationCount = _
  rw [enqueueCore_saturation, f1, f2, f5, f6]

set_option maxRecDepth 10000 in
/-- C5: for every operation sequence from a fresh broadcaster,
`total_queued` equals channel length plus overflow length and never
exceeds `peak_queue_size`; the channel capacity is `workers * 10`; an
enqueue finding the channel full appends the event to the overflow
list, and `saturation_count` is bumped exactly when the overflow
transitions from empty to non-empty; in the S2 scenario (workers = 2,
25 distinct events, stalled workers) the channel holds 20, the
overflow 5, `saturation_count` is 1, and the peak is 25. -/
theorem queue_accounting_invariant :
    (∀ (mand : List String) (wc : Nat) (ttl : ℚ) (ops : List BOp),
        (runB (newBroadcaster mand wc ttl) ops).totalQueued =
          ((runB (newBroadcaster mand wc ttl) ops).eventQueue.length : ℤ) +
            ((runB (newBroadcaster mand wc ttl) ops).overflowQueue.length : ℤ) ∧
        (runB (newBroadcaster mand wc ttl) ops).totalQueued ≤
          (runB (newBroadcaster mand wc ttl) ops).peakQueueSize ∧
        (runB (newBroadcaster mand wc ttl) ops).channelCapacity = wc * 10) ∧
    (∀ (b : Broadcaster) (e : Event) (now : ℚ),
        (broadcastEnqueue b e now).overflowQueue =
          (if b.eventQueue.length < b.channelCapacity then b.overflowQueue
           else b.overflowQueue ++ [e]) ∧
        (broadcastEnqueue b e now).saturationCount =
          b.saturationCount +
            (if b.channelCapacity ≤ b.eventQueue.length ∧ b.overflowQueue = [] then 1
             else 0)) ∧
    ((runB (newBroadcaster [] 2 600) opsS2).eventQueue.length = 20 ∧
     (runB (newBroadcaster [] 2 600) opsS2).overflowQueue.length = 5 ∧
     (runB (newBroadcaster [] 2 600) opsS2).saturationCount = 1 ∧
     (runB (newBroadcaster [] 2 600) opsS2).peakQueueSize = 25 ∧
     (runB (newBroadcaster [] 2 600) opsS2).totalQueued = 25) := by
  refine ⟨?_, ?_, ?_⟩
  · intro mand wc ttl ops
    have hinv := queueInv_runB ops (newBroadcaster mand wc ttl) ⟨rfl, le_refl 0⟩
    obtain ⟨c1, _, _⟩ := runB_config ops (newBroadcaster mand wc ttl)
    exact ⟨hinv.1, hinv.2, c1⟩
  · intro b e now
    exact ⟨broadcastEnqueue_overflow b e now, broadcastEnqueue_saturation b e now⟩
  · exact ⟨by decide, by decide, by decide, by decide, by decide⟩

/-- C6: the dedup cache never exceeds `cache_max_size` entries along
any operation sequence from a fresh broadcaster (whose bound is
100000); an insertion finding the cache at or above the bound first
drops a batch of `cache_max_size / 5` entries in iteration order and
only then writes the new `(fingerprint, now)` entry, while an
insertion finding room evicts nothing. -/
theorem dedup_cache_bounded :
    (∀ (mand : List String) (wc : Nat) (ttl : ℚ) (ops : List BOp),
        (runB (newBroadcaster mand wc ttl) ops).eventCache.length ≤ 100000) ∧
    (∀ (b : Broadcaster) (id : String) (now : ℚ),
        b.cacheMaxSize ≤ b.eventCache.length → 1 ≤ b.cacheMaxSize / 5 →
        (addEventToCache b id now).eventCache =
          cacheWrite (b.eventCache.drop (b.cacheMaxSize / 5)) id now) ∧
    (∀ (b : Broadcaster) (id : String) (now : ℚ),
        b.eventCache.length < b.cacheMaxSize →
        (addEventToCache b id now).eventCache = cacheWrite b.eventCache id now) := by
  refine ⟨?_, ?_, ?_⟩
  · intro mand wc ttl ops
    have hinv := cacheInv_runB ops (newBroadcaster mand wc ttl)
      ⟨by norm_num [newBroadcaster], by norm_num [newBroadcaster]⟩
    obtain ⟨_, c2, _⟩ := runB_config ops (newBroadcaster mand wc ttl)
    have : (runB (newBroadcaster mand wc ttl) ops).cacheMaxSize = 100000 := c2
    have hle := hinv.2
    omega
  · intro b id now hfull hdiv
    show cacheWrite (evictedCache b) id now = _
    have hev : evictedCache b = b.eventCache.drop (b.cacheMaxSize / 5) := by
      unfold evictedCache
      rw [if_pos hfull]
      have h5 : 5 ≤ b.cacheMaxSize := by
        rcases Nat.lt_or_ge b.cacheMaxSize 5 with h | h
        · interval_cases hmax : b.cacheMaxSize <;> simp_all
        · exact h
      have hne : ¬ (b.eventCache.isEmpty = true) := by
        simp only [List.isEmpty_iff_length_eq_zero]
        omega
      rw [if_neg hne]
      have hdle : b.cacheMaxSize / 5 ≤ b.cacheMaxSize := Nat.div_le_self _ _
      have : min b.eventCache.length (max (b.cacheMaxSize / 5) 1) = b.cacheMaxSize / 5 := by
        omega
      rw [this]
    rw [hev]
  · intro b id now hroom
    show cacheWrite (evictedCache b) id now = _
    have hev : evictedCache b = b.eventCache := by
      unfold evictedCache
      rw [if_neg (not_le.2 hroom)]
    rw [hev]

/-- Witness for C6: the eviction equation instantiated at a
broadcaster whose cache of five entries sits exactly at its bound of
five (so a fifth, 1, is dropped before the write), and the no-eviction
equation at the fresh broadcaster. -/
theorem dedup_cache_bounded_witness :
    ((addEventToCache bC6full "f" 7).eventCache =
      cacheWrite (bC6full.eventCache.drop (bC6full.cacheMaxSize / 5)) "f" 7) ∧
    ((addEventToCache (newBroadcaster [] 2 600) "f" 7).eventCache =
      cacheWrite (newBroadcaster [] 2 600).eventCache "f" 7) :=
  ⟨dedup_cache_bounded.2.1 bC6full "f" 7 (by decide) (by decide),
   dedup_cache_bounded.2.2 (newBroadcaster [] 2 600) "f" 7 (by decide)⟩

/-- C10: the dedup cache capacity is the hardcoded constant 100000 for
every configuration: `NewBroadcaster` ignores every configuration
field when setting `cacheMaxSize`, and the `Config` structure carries
no cache-size field (only `CacheTTL` is configurable). -/
theorem cache_capacity_hardcoded :
    (∀ cfg : Config,
        (newBroadcaster cfg.mandatoryRelays cfg.workerCount cfg.cacheTTL).cacheMaxSize = 100000) ∧
    (∀ (mand : List String) (wc : Nat) (ttl : ℚ),
        (newBroadcaster mand wc ttl).cacheMaxSize = 100000) :=
  ⟨fun _ => rfl, fun _ _ _ => rfl⟩


/-! ### Endpoint invariants (C8) -/

lemma relayWF_default : relayWF defaultRelayInfo := by
  norm_num [relayWF, defaultRelayInfo]

lemma ratio_bounds (a b : ℤ) (h0 : 0 ≤ a) (hab : a ≤ b) (hb : 0 < b) :
    0 ≤ (a : ℚ) / (b : ℚ) ∧ (a : ℚ) / (b : ℚ) ≤ 1 := by
  constructor
  · apply div_nonneg
    · exact_mod_cast h0
    · exact_mod_cast hb.le
  · rw [div_le_one (by exact_mod_cast hb)]
    exact_mod_cast hab

lemma decay_bounds (rate d obs : ℚ) (h1 : 0 ≤ rate) (h2 : rate ≤ 1)
    (h3 : 0 ≤ d) (h4 : d ≤ 1) (h5 : 0 ≤ obs) (h6 : obs ≤ 1) :
    0 ≤ rate * d + obs * (1 - d) ∧ rate * d + obs * (1 - d) ≤ 1 := by
  constructor <;> nlinarith

lemma relayWF_updateRelayRecord (init : Bool) (decay : ℚ) (r : RelayInfo)
    (success : Bool) (rt now : ℚ) (hr : relayWF r) (hrt : 0 ≤ rt)
    (hd1 : 0 ≤ decay) (hd2 : decay ≤ 1) :
    relayWF (updateRelayRecord init decay r success rt now) := by
  obtain ⟨w1, w2, w3, w4, w5⟩ := hr
  have htot : (0 : ℤ) ≤ r.totalAttempts := le_trans w1 w2
  have hobs : 0 ≤ (if success then (1 : ℚ) else 0) ∧
      (if success then (1 : ℚ) else 0) ≤ 1 := by
    cases success <;> norm_num
  have hsucc1 : (0 : ℤ) ≤ (if success then r.successfulAttempts + 1 else r.successfulAttempts) := by
    cases success <;> simp <;> omega
  have hsucc2 : (if success then r.successfulAttempts + 1 else r.successfulAttempts) ≤
      r.totalAttempts + 1 := by
    cases success <;> simp <;> omega
  have havg : 0 ≤ (if success then
      (if r.avgResponseTime = 0 then rt
       else r.avgResponseTime * (7/10) + rt * (3/10))
    else r.avgResponseTime) := by
    cases success
    · simpa using w5
    · simp only [if_true, ite_true]
      split_ifs
      · exact hrt
      · nlinarith
  have hrate : 0 ≤ (if init then
        r.successRate * decay + (if success then (1:ℚ) else 0) * (1 - decay)
      else
        if 0 < r.totalAttempts + 1 then
          ((if success then r.successfulAttempts + 1 else r.successfulAttempts : ℤ) : ℚ) /
            ((r.totalAttempts + 1 : ℤ) : ℚ)
        else r.successRate) ∧
      (if init then
        r.successRate * decay + (if success then (1:ℚ) else 0) * (1 - decay)
      else
        if 0 < r.totalAttempts + 1 then
          ((if success then r.successfulAttempts + 1 else r.successfulAttempts : ℤ) : ℚ) /
            ((r.totalAttempts + 1 : ℤ) : ℚ)
        else r.successRate) ≤ 1 := by
    by_cases hi : init
    · simp only [hi, ite_true]
      exact decay_bounds _ _ _ w3 w4 hd1 hd2 hobs.1 hobs.2
    · simp only [hi, ite_false, Bool.false_eq_true]
      rw [if_pos (by omega : (0:ℤ) < r.totalAttempts + 1)]
      exact ratio_bounds _ _ hsucc1 hsucc2 (by omega)
  exact ⟨hsucc1, hsucc2, hrate.1, hrate.2, havg⟩

lemma relayWF_derefRelay {m : Manager} (hm : managerWF m) (a : Nat) :
    relayWF (derefRelay m a) := by
  unfold derefRelay
  rcases Nat.lt_or_ge a m.store.length with h | h
  · rw [List.getD_eq_getElem?_getD, List.getElem?_eq_getElem h]
    exact hm _ (List.getElem_mem h)
  · rw [List.getD_eq_getElem?_getD, List.getElem?_eq_none h]
    exact relayWF_default

lemma applyPoolOp_decay (m : Manager) (op : PoolOp) :
    (applyPoolOp m op).decay = m.decay := by
  cases op with
  | add url now =>
      show (addRelay m url now).decay = m.decay
      unfold addRelay
      rcases lookupAddr m url with _ | a <;> rfl
  | update url success rt now =>
      show (updateHealth m url success rt now).decay = m.decay
      unfold updateHealth
      rcases lookupAddr m url with _ | a <;> rfl
  | markInit => rfl

lemma managerWF_applyPoolOp (m : Manager) (op : PoolOp) (hm : managerWF m)
    (hd1 : 0 ≤ m.decay) (hd2 : m.decay ≤ 1) (hop : poolOpWF op) :
    managerWF (applyPoolOp m op) := by
  cases op with
  | add url now =>
      show managerWF (addRelay m url now)
      unfold addRelay
      rcases lookupAddr m url with _ | a
      · intro r hr
        rcases List.mem_append.1 hr with h | h
        · exact hm r h
        · rcases List.mem_singleton.1 h with rfl
          norm_num [relayWF]
      · exact hm
  | update url success rt now =>
      show managerWF (updateHealth m url success rt now)
      unfold updateHealth
      rcases lookupAddr m url with _ | a
      · exact hm
      · intro r hr
        rcases List.mem_or_eq_of_mem_set hr with h | rfl
        · exact hm r h
        · exact relayWF_updateRelayRecord _ _ _ _ _ _ (relayWF_derefRelay hm a) hop hd1 hd2
  | markInit => exact hm

lemma managerWF_runPool (ops : List PoolOp) : ∀ m : Manager,
    managerWF m → 0 ≤ m.decay → m.decay ≤ 1 → (∀ op ∈ ops, poolOpWF op) →
    managerWF (runPool m ops) := by
  induction ops with
  | nil => intro m hm _ _ _; exact hm
  | cons op rest ih =>
      intro m hm hd1 hd2 hops
      have hd := applyPoolOp_decay m op
      exact ih (applyPoolOp m op)
        (managerWF_applyPoolOp m op hm hd1 hd2 (hops op (by simp)))
        (by rw [hd]; exact hd1) (by rw [hd]; exact hd2)
        (fun op' h' => hops op' (by simp [h']))

lemma getD_append_self {α : Type} : ∀ (l : List α) (x d : α),
    (l ++ [x]).getD l.length d = x := by
  intro l
  induction l with
  | nil => intro x d; rfl
  | cons a t ih => intro x d; simp [ih x d]

/-- C8: for every sequence of `add`, `update_health` and
`mark_initialized` operations from a fresh pool, assuming the decay
constant lies in (0, 1) and measured response times are nonnegative,
every endpoint record satisfies
`0 ≤ successful_attempts ≤ total_attempts`, `0 ≤ success_rate ≤ 1`
and `avg_response_time ≥ 0`; and a freshly added endpoint starts with
`success_rate = 1.0`, zero counters, and zero average. -/
theorem pool_counters_invariant (topN : Nat) (decay : ℚ) (ops : List PoolOp)
    (h1 : 0 < decay) (h2 : decay < 1) (hops : ∀ op ∈ ops, poolOpWF op) :
    managerWF (runPool (newManager topN decay) ops) ∧
    (∀ (m : Manager) (url : String) (now : ℚ), lookupAddr m url = none →
        getRelayInfo (addRelay m url now) url =
          some { url := url, avgResponseTime := 0, successRate := 1,
                 totalAttempts := 0, successfulAttempts := 0, lastChecked := now }) := by
  constructor
  · exact managerWF_runPool ops (newManager topN decay)
      (fun r hr => absurd hr (List.not_mem_nil r)) h1.le h2.le hops
  · intro m url now haddr
    have hfind : m.relays.find? (fun pr => pr.fst == url) = none := by
      have := haddr
      unfold lookupAddr at this
      exact Option.map_eq_none'.1 this
    unfold addRelay
    rw [haddr]
    unfold getRelayInfo lookupAddr
    simp only [List.find?_append, hfind, Option.none_or]
    have : (List.find? (fun pr => pr.fst == url) [(url, m.store.length)]) =
        some (url, m.store.length) := by
      simp [List.find?]
    rw [this]
    simp only [Option.map_some']
    unfold derefRelay
    rw [show ({ m with
        store := m.store ++ [{ url := url, avgResponseTime := 0, successRate := 1,
                               totalAttempts := 0, successfulAttempts := 0,
                               lastChecked := now }],
        relays := m.relays ++ [(url, m.store.length)] : Manager }).store
      = m.store ++ [{ url := url, avgResponseTime := 0, successRate := 1,
                      totalAttempts := 0, successfulAttempts := 0,
                      lastChecked := now }] from rfl]
    rw [getD_append_self]

/-- Witness for C8: the invariant instantiated on a four-operation
history (add, successful update, mark-initialized, failed update) with
decay 19/20, plus the fresh-endpoint equation on the empty pool. -/
theorem pool_counters_invariant_witness :
    managerWF (runPool (newManager 5 (mkRat 19 20)) opsW8) ∧
    getRelayInfo (addRelay (newManager 5 (mkRat 19 20)) "A" 0) "A" =
      some { url := "A", avgResponseTime := 0, successRate := 1,
             totalAttempts := 0, successfulAttempts := 0, lastChecked := 0 } := by
  have h := pool_counters_invariant 5 (mkRat 19 20) opsW8 (by decide) (by decide)
    (by intro op hop; fin_cases hop <;> norm_num [poolOpWF])
  exact ⟨h.1, h.2 (newManager 5 (mkRat 19 20)) "A" 0 rfl⟩


/-! ### Pointer semantics of the pool views (C9) -/

lemma assoc_find?_eq : ∀ (l : List (String × Nat)) (u : String) (a : Nat),
    (l.map Prod.fst).Nodup → (u, a) ∈ l →
    l.find? (fun pr => pr.fst == u) = some (u, a) := by
  intro l
  induction l with
  | nil => intro u a _ h; simp at h
  | cons p t ih =>
      intro u a hnd hmem
      rcases p with ⟨k, v⟩
      rcases List.mem_cons.1 hmem with heq | htail
      · cases heq
        simp [List.find?]
      · have hnd' : (k :: t.map Prod.fst).Nodup := by simpa using hnd
        by_cases hk : k = u
        · exfalso
          subst hk
          have hin : k ∈ t.map Prod.fst := List.mem_map.2 ⟨(k, a), htail, rfl⟩
          exact (List.nodup_cons.1 hnd').1 hin
        · rw [List.find?_cons_of_neg _ (by simp [hk])]
          exact ih u a (by simpa using (List.nodup_cons.1 hnd').2) htail

/-- C9 counterexample: on a pool with one tested relay "A", the view
returned by `top()` is a live pointer: after a further
`update_health` on "A", reading `total_attempts` through the
previously returned view yields the updated value, not the value at
the time `top()` returned.  This is the Go behaviour:
`GetTopRelays` returns the `*RelayInfo` pointers stored in the map. -/
theorem top_view_not_snapshot :
    (derefRelay (updateHealth mgrW "A" true 2 2) ((getTopRelays mgrW).headD 0)).totalAttempts
      ≠ (derefRelay mgrW ((getTopRelays mgrW).headD 0)).totalAttempts := by
  decide

/-- C9 (amended): views returned by `top()` are live references — a
subsequent `update_health` on the view's URL is visible through it as
an incremented `total_attempts` — while `get(url)` returns a copy of
the record at call time (the value `derefRelay m a`, detached from
the store). -/
theorem pool_top_views_live (m : Manager) (hwf : managerPtrWF m) (a : Nat)
    (ha : a ∈ getTopRelays m) (success : Bool) (rt now : ℚ) :
    (derefRelay (updateHealth m (derefRelay m a).url success rt now) a).totalAttempts
      = (derefRelay m a).totalAttempts + 1 ∧
    (∀ v, getRelayInfo m (derefRelay m a).url = some v → v = derefRelay m a) := by
  obtain ⟨⟨pr, hpr, hsnd⟩, _⟩ := mem_getTopRelays ha
  rcases pr with ⟨u, a0⟩
  cases hsnd
  obtain ⟨hnd, hmem⟩ := hwf
  obtain ⟨hlt, hurl⟩ := hmem (u, a0) hpr
  have hlt' : a0 < m.store.length := hlt
  have hurl' : (derefRelay m a0).url = u := hurl
  have hfind : m.relays.find? (fun pr => pr.fst == u) = some (u, a0) :=
    assoc_find?_eq m.relays u a0 hnd hpr
  have hlook : lookupAddr m u = some a0 := by
    unfold lookupAddr
    rw [hfind]
    rfl
  have hstore : (updateHealth m u success rt now).store =
      m.store.set a0 (updateRelayRecord m.initialized m.decay (derefRelay m a0) success rt now) := by
    unfold updateHealth
    rw [hlook]
  constructor
  · show (derefRelay (updateHealth m (derefRelay m a0).url success rt now) a0).totalAttempts =
      (derefRelay m a0).totalAttempts + 1
    rw [hurl']
    show ((updateHealth m u success rt now).store.getD a0 defaultRelayInfo).totalAttempts = _
    rw [hstore, getD_set_self _ _ _ _ hlt']
    rfl
  · show ∀ v, getRelayInfo m (derefRelay m a0).url = some v → v = derefRelay m a0
    intro v hv
    rw [hurl'] at hv
    unfold getRelayInfo at hv
    rw [hlook] at hv
    simp at hv
    exact hv.symm

/-- Witness for the amended C9: instantiated on the one-relay pool,
whose pointer structure is well formed and whose `top()` returns the
cell address 0. -/
theorem pool_top_views_live_witness :
    (derefRelay (updateHealth mgrW (derefRelay mgrW 0).url true 2 2) 0).totalAttempts
      = (derefRelay mgrW 0).totalAttempts + 1 ∧
    (∀ v, getRelayInfo mgrW (derefRelay mgrW 0).url = some v → v = derefRelay mgrW 0) :=
  pool_top_views_live mgrW (by unfold managerPtrWF; decide) 0 (by decide) true 2 2


/-! ### Cache entry preservation (C1) -/

lemma cacheLookup_map_replace (id : String) (now : ℚ) : ∀ c : List (String × ℚ),
    (cacheLookup c id).isSome = true →
    cacheLookup (c.map (fun pr => if pr.fst == id then (id, now) else pr)) id = some now := by
  intro c
  induction c with
  | nil => intro h; simp [cacheLookup] at h
  | cons p t ih =>
      intro h
      rcases p with ⟨k, ts⟩
      by_cases hk : k = id
      · subst hk
        rw [List.map_cons, show (if (((k, ts) : String × ℚ).fst == k) = true then (k, now)
            else (k, ts)) = (k, now) from by simp]
        show (if k = k then some now else _) = some now
        rw [if_pos rfl]
      · have h' : (cacheLookup t id).isSome = true := by
          have : cacheLookup ((k, ts) :: t) id = cacheLookup t id := by
            show (if k = id then some ts else cacheLookup t id) = cacheLookup t id
            rw [if_neg hk]
          rw [this] at h
          exact h
        rw [List.map_cons, show (if (((k, ts) : String × ℚ).fst == id) = true then (id, now)
            else (k, ts)) = (k, ts) from by simp [hk]]
        show (if k = id then some ts else _) = some now
        rw [if_neg hk]
        exact ih h'

lemma cacheLookup_append_absent (id : String) (now : ℚ) : ∀ c : List (String × ℚ),
    cacheLookup c id = none →
    cacheLookup (c ++ [(id, now)]) id = some now := by
  intro c
  induction c with
  | nil =>
      intro _
      show (if id = id then some now else _) = some now
      rw [if_pos rfl]
  | cons p t ih =>
      intro h
      rcases p with ⟨k, ts⟩
      have hk : ¬ k = id := by
        intro hkk
        rw [show cacheLookup ((k, ts) :: t) id = (if k = id then some ts else cacheLookup t id)
          from rfl, if_pos hkk] at h
        cases h
      have h' : cacheLookup t id = none := by
        rw [show cacheLookup ((k, ts) :: t) id = (if k = id then some ts else cacheLookup t id)
          from rfl, if_neg hk] at h
        exact h
      show (if k = id then some ts else cacheLookup (t ++ [(id, now)]) id) = some now
      rw [if_neg hk]
      exact ih h'

lemma cacheLookup_cacheWrite_self (c : List (String × ℚ)) (id : String) (now : ℚ) :
    cacheLookup (cacheWrite c id now) id = some now := by
  unfold cacheWrite
  by_cases h : (cacheLookup c id).isSome
  · rw [if_pos h]
    exact cacheLookup_map_replace id now c h
  · rw [if_neg h]
    exact cacheLookup_append_absent id now c (Option.not_isSome_iff_eq_none.1 h)

lemma cacheLookup_cacheWrite_other (c : List (String × ℚ)) (id F : String) (now : ℚ)
    (hne : F ≠ id) :
    cacheLookup (cacheWrite c id now) F = cacheLookup c F := by
  have hne' : ¬ id = F := fun h => hne h.symm
  unfold cacheWrite
  by_cases h : (cacheLookup c id).isSome
  · rw [if_pos h]
    clear h
    induction c with
    | nil => rfl
    | cons p t ih =>
        rcases p with ⟨k, ts⟩
        by_cases hk : k = id
        · subst hk
          rw [List.map_cons, show (if (((k, ts) : String × ℚ).fst == k) = true then (k, now)
              else (k, ts)) = (k, now) from by simp]
          show (if k = F then some now else _) = (if k = F then some ts else cacheLookup t F)
          rw [if_neg hne', if_neg hne']
          exact ih
        · rw [List.map_cons, show (if (((k, ts) : String × ℚ).fst == id) = true then (id, now)
              else (k, ts)) = (k, ts) from by simp [hk]]
          show (if k = F then some ts else _) = (if k = F then some ts else cacheLookup t F)
          by_cases hkF : k = F
          · rw [if_pos hkF, if_pos hkF]
          · rw [if_neg hkF, if_neg hkF]
            exact ih
  · rw [if_neg h]
    clear h
    induction c with
    | nil =>
        show (if id = F then some now else none) = none
        rw [if_neg hne']
    | cons p t ih =>
        rcases p with ⟨k, ts⟩
        show (if k = F then some ts else cacheLookup (t ++ [(id, now)]) F) =
          (if k = F then some ts else cacheLookup t F)
        by_cases hkF : k = F
        · rw [if_pos hkF, if_pos hkF]
        · rw [if_neg hkF, if_neg hkF]
          exact ih

lemma cacheLookup_filter_keep (p : String × ℚ → Bool) : ∀ (c : List (String × ℚ)) (F : String) (ts : ℚ),
    cacheLookup c F = some ts → p (F, ts) = true →
    cacheLookup (c.filter p) F = some ts := by
  intro c
  induction c with
  | nil => intro F ts h _; cases h
  | cons pr t ih =>
      intro F ts h hkeep
      rcases pr with ⟨k, v⟩
      by_cases hk : k = F
      · subst hk
        have hv : v = ts := by
          rw [show cacheLookup ((k, v) :: t) k = (if k = k then some v else cacheLookup t k)
            from rfl, if_pos rfl] at h
          exact Option.some.inj h
        subst hv
        rw [List.filter_cons_of_pos hkeep]
        show (if k = k then some v else _) = some v
        rw [if_pos rfl]
      · have h' : cacheLookup t F = some ts := by
          rw [show cacheLookup ((k, v) :: t) F = (if k = F then some v else cacheLookup t F)
            from rfl, if_neg hk] at h
          exact h
        by_cases hp : p (k, v) = true
        · rw [List.filter_cons_of_pos hp]
          show (if k = F then some v else cacheLookup (t.filter p) F) = some ts
          rw [if_neg hk]
          exact ih F ts h' hkeep
        · rw [List.filter_cons_of_neg (by simpa using hp)]
          exact ih F ts h' hkeep


lemma pushPeak_totalQueued (b : Broadcaster) :
    (pushPeak b).totalQueued = b.totalQueued := rfl

lemma enqueueCore_totalQueued (b : Broadcaster) (e : Event) (now : ℚ) :
    (enqueueCore b e now).totalQueued = b.totalQueued + 1 := by
  unfold enqueueCore pushPeak saturationStamp
  split_ifs <;> rfl

lemma enqueueCore_eventQueue_len (b : Broadcaster) (e : Event) (now : ℚ) :
    (broadcastEnqueue b e now).totalQueued = b.totalQueued + 1 := by
  obtain ⟨f1, f2, f3, f4, f5, f6, f7, f8⟩ := addEventToCache_frame b e.id now
  show (enqueueCore (addEventToCache b e.id now) e now).totalQueued = _
  rw [enqueueCore_totalQueued, f3]

lemma noEviction_cache {b : Broadcaster} (hnp : b.eventCache.length < b.cacheMaxSize) :
    evictedCache b = b.eventCache := by
  unfold evictedCache
  rw [if_neg (by omega)]

lemma submit_accepted_cache {b : Broadcaster} {e : Event} {now : ℚ}
    (hc : (isEventCached b e.id now).fst = false)
    (hnp : b.eventCache.length < b.cacheMaxSize) :
    (submitEvent b e now).eventCache = cacheWrite b.eventCache e.id now := by
  obtain ⟨_, _, _, _, _, _, f7, f8, _⟩ := isEventCached_frame b e.id now
  rw [submitEvent_accepted hc]
  obtain ⟨_, _, _, g4⟩ := broadcastEnqueue_config (isEventCached b e.id now).snd e now
  rw [g4]
  show cacheWrite (evictedCache (isEventCached b e.id now).snd) e.id now = _
  rw [noEviction_cache (by rw [f7, f8]; exact hnp), f7]

/-- A fresh cache entry for `F` survives any single pipeline step whose
timestamp is within the entry's TTL, provided capacity eviction does
not fire. -/
lemma fresh_preserved (b : Broadcaster) (op : BOp) (F : String) (ts : ℚ)
    (h : cacheLookup b.eventCache F = some ts)
    (hop : opBeforeDeadline (ts + b.cacheTTL) op)
    (hnp : b.eventCache.length < b.cacheMaxSize) :
    cacheLookup (stepB b op).eventCache F = some ts := by
  cases op with
  | submit e now =>
      have hnow : now ≤ ts + b.cacheTTL := hop
      simp only [stepB]
      rcases hc : (isEventCached b e.id now).fst with _ | _
      · by_cases hid : e.id = F
        · exfalso
          rw [hid] at hc
          rw [isEventCached_fresh h (by linarith)] at hc
          cases hc
        · rw [submit_accepted_cache hc hnp]
          exact (cacheLookup_cacheWrite_other b.eventCache e.id F now
            (fun hF => hid hF.symm)).trans h
      · rw [submitEvent_rejected hc]
        obtain ⟨_, _, _, _, _, _, f7, _, _⟩ := isEventCached_frame b e.id now
        rw [f7]
        exact h
  | dequeue =>
      simp only [stepB, workerDequeue]
      rcases hq : b.eventQueue with _ | ⟨x, rest⟩
      · exact h
      · exact h
  | cleanup now =>
      have hnow : now ≤ ts + b.cacheTTL := hop
      simp only [stepB, cacheCleanupSweep]
      apply cacheLookup_filter_keep _ _ _ _ h
      simp only [decide_eq_true_eq]
      linarith

/-- Once a fresh entry for `F` is in the cache, no later in-window
submission of `F` is accepted. -/
lemma countIngest_zero (F : String) : ∀ (ops : List BOp) (b : Broadcaster) (ts : ℚ),
    cacheLookup b.eventCache F = some ts →
    (∀ op ∈ ops, opBeforeDeadline (ts + b.cacheTTL) op) →
    noPressure b ops →
    countIngest F b ops = 0 := by
  intro ops
  induction ops with
  | nil => intro b ts _ _ _; rfl
  | cons op rest ih =>
      intro b ts h hw hp
      obtain ⟨hnp, hptail⟩ := hp
      have hpres := fresh_preserved b op F ts h (hw op (by simp)) hnp
      have httl : (stepB b op).cacheTTL = b.cacheTTL := (stepB_config b op).2.2
      have htail := ih (stepB b op) ts hpres
        (by intro op' h'; rw [httl]; exact hw op' (by simp [h'])) hptail
      cases op with
      | submit e now =>
          show (if e.id = F ∧ (isEventCached b e.id now).fst = false then 1 else 0) +
            countIngest F (stepB b (BOp.submit e now)) rest = 0
          rw [htail]
          have hnow : now ≤ ts + b.cacheTTL := hw (BOp.submit e now) (by simp)
          by_cases hid : e.id = F
          · have hfst : (isEventCached b e.id now).fst = true := by
              rw [hid, isEventCached_fresh h (by linarith)]
            simp [hfst]
          · simp [hid]
      | dequeue =>
          show 0 + countIngest F (stepB b BOp.dequeue) rest = 0
          rw [htail]
      | cleanup now =>
          show 0 + countIngest F (stepB b (BOp.cleanup now)) rest = 0
          rw [htail]

/-- C1: for every fingerprint F and every pipeline trace whose timed
operations stay inside one `cache_ttl` window and during which the
cache is never evicted by capacity pressure, at most one submission of
F is accepted by the ingress pipeline; a submission rejected as a
duplicate leaves `total_queued` and both queues unchanged, while an
accepted one advances `total_queued` by exactly one. -/
theorem dedup_ingest_at_most_once (b : Broadcaster) (T : ℚ) (F : String) (ops : List BOp)
    (hw : ∀ op ∈ ops, opInWindow T (T + b.cacheTTL) op)
    (hp : noPressure b ops) :
    countIngest F b ops ≤ 1 ∧
    (∀ (e : Event) (now : ℚ), e.id = F →
        ((isEventCached b e.id now).fst = true →
            (submitEvent b e now).totalQueued = b.totalQueued ∧
            (submitEvent b e now).eventQueue = b.eventQueue ∧
            (submitEvent b e now).overflowQueue = b.overflowQueue) ∧
        ((isEventCached b e.id now).fst = false →
            (submitEvent b e now).totalQueued = b.totalQueued + 1)) := by
  constructor
  · induction ops generalizing b with
    | nil => exact Nat.zero_le 1
    | cons op rest ih =>
        obtain ⟨hnp, hptail⟩ := hp
        have httl : (stepB b op).cacheTTL = b.cacheTTL := (stepB_config b op).2.2
        have hwtail : ∀ op' ∈ rest, opInWindow T (T + (stepB b op).cacheTTL) op' := by
          intro op' h'
          rw [httl]
          exact hw op' (by simp [h'])
        cases op with
        | submit e now =>
            show (if e.id = F ∧ (isEventCached b e.id now).fst = false then 1 else 0) +
              countIngest F (stepB b (BOp.submit e now)) rest ≤ 1
            obtain ⟨hT, hU⟩ : T ≤ now ∧ now ≤ T + b.cacheTTL := hw (BOp.submit e now) (by simp)
            by_cases hacc : e.id = F ∧ (isEventCached b e.id now).fst = false
            · rw [if_pos hacc]
              obtain ⟨hid, hc⟩ := hacc
              have hcache : (stepB b (BOp.submit e now)).eventCache =
                  cacheWrite b.eventCache e.id now := submit_accepted_cache hc hnp
              have hlook2 : cacheLookup (stepB b (BOp.submit e now)).eventCache F = some now := by
                rw [hcache, ← hid]
                exact cacheLookup_cacheWrite_self b.eventCache e.id now
              have hzero := countIngest_zero F rest (stepB b (BOp.submit e now)) now hlook2
                (by
                  intro op' h'
                  rw [httl]
                  have hw' := hwtail op' h'
                  rw [httl] at hw'
                  cases op' with
                  | submit e' now' =>
                      have : now' ≤ T + b.cacheTTL := hw'.2
                      show now' ≤ now + b.cacheTTL
                      linarith
                  | dequeue => trivial
                  | cleanup now' =>
                      have : now' ≤ T + b.cacheTTL := hw'.2
                      show now' ≤ now + b.cacheTTL
                      linarith)
                hptail
              rw [hzero]
            · rw [if_neg hacc]
              simpa using ih (stepB b (BOp.submit e now)) hwtail hptail
        | dequeue =>
            show 0 + countIngest F (stepB b BOp.dequeue) rest ≤ 1
            simpa using ih (stepB b BOp.dequeue) hwtail hptail
        | cleanup now =>
            show 0 + countIngest F (stepB b (BOp.cleanup now)) rest ≤ 1
            simpa using ih (stepB b (BOp.cleanup now)) hwtail hptail
  · intro e now hid
    constructor
    · intro hc
      rw [submitEvent_rejected hc]
      obtain ⟨f1, f2, f3, _, _, _, _, _, _⟩ := isEventCached_frame b e.id now
      exact ⟨f3, f1, f2⟩
    · intro hc
      rw [submitEvent_accepted hc]
      have := enqueueCore_eventQueue_len (isEventCached b e.id now).snd e now
      obtain ⟨_, _, f3, _, _, _, _, _, _⟩ := isEventCached_frame b e.id now
      rw [this, f3]

/-- Witness for C1: a trace submitting the same fingerprint "abc"
twice at time 0 inside a 600-second TTL window, from a fresh
two-worker broadcaster. -/
theorem dedup_ingest_at_most_once_witness :
    countIngest "abc" (newBroadcaster [] 2 600)
        [BOp.submit ⟨"abc", 1⟩ 0, BOp.submit ⟨"abc", 1⟩ 0] ≤ 1 ∧
    (∀ (e : Event) (now : ℚ), e.id = "abc" →
        ((isEventCached (newBroadcaster [] 2 600) e.id now).fst = true →
            (submitEvent (newBroadcaster [] 2 600) e now).totalQueued =
              (newBroadcaster [] 2 600).totalQueued ∧
            (submitEvent (newBroadcaster [] 2 600) e now).eventQueue =
              (newBroadcaster [] 2 600).eventQueue ∧
            (submitEvent (newBroadcaster [] 2 600) e now).overflowQueue =
              (newBroadcaster [] 2 600).overflowQueue) ∧
        ((isEventCached (newBroadcaster [] 2 600) e.id now).fst = false →
            (submitEvent (newBroadcaster [] 2 600) e now).totalQueued =
              (newBroadcaster [] 2 600).totalQueued + 1)) :=
  dedup_ingest_at_most_once (newBroadcaster [] 2 600) 0 "abc"
    [BOp.submit ⟨"abc", 1⟩ 0, BOp.submit ⟨"abc", 1⟩ 0]
    (by
      intro op hop
      fin_cases hop <;>
        exact ⟨le_refl 0, by norm_num [newBroadcaster]⟩)
    (by
      refine ⟨by decide, by decide, trivial⟩)

end BroadcastRelay
